import Mathlib

/-!
Verification of the Me2You audio pipeline (LucK3i3s/Me2You).

Shallow embedding of the frame-to-message pipeline: the byte-stream frame
accumulators, the dominant-frequency search, the tri-state and color
classifiers, the message synthesizer, the temporal smoother, the sink
fan-out of handleNewMessage, the webhook sink and the capture restart
wiring.  Magnitudes and frequencies are rationals; the JS values NaN and
negative infinity, which the source manipulates through sentinel
comparisons, are modelled as the `none` case of `Option` at the two places
they arise (the frequency of an empty spectrum and the initial running
maximum of the peak search).
-/

/-- Bytes of the 16-bit PCM stream, modelled as natural numbers. -/
abbrev Byte := Nat

/-- Frame-emission loop shared by startMicrophoneCapture
(src/unnamed/part_002 lines 159-169) and startRecording (src/Me2You.js lines
794-821): while at least `needed` bytes are pending, slice off the first
`needed` bytes as one frame and keep the rest pending.  The JS loop would
diverge for `needed = 0`; the guard `0 < needed` keeps the function total
(the deployed value is FRAME_SIZE * 2 = 4096). -/
def emitFrames (needed : Nat) (pending : List Byte) : List (List Byte) × List Byte :=
  if h : 0 < needed ∧ needed ≤ pending.length then
    let r := emitFrames needed (pending.drop needed)
    (pending.take needed :: r.1, r.2)
  else
    ([], pending)
termination_by pending.length
decreasing_by
  simp only [List.length_drop]
  exact Nat.sub_lt (Nat.lt_of_lt_of_le h.1 h.2) h.1

/-- One data event of the pending-buffer accumulator: append the chunk, then
emit as many full frames as possible (src/unnamed/part_002 lines 159-169).
The first component accumulates every frame emitted so far, in order. -/
def pushChunk (needed : Nat) (st : List (List Byte) × List Byte) (chunk : List Byte) :
    List (List Byte) × List Byte :=
  let r := emitFrames needed (st.2 ++ chunk)
  (st.1 ++ r.1, r.2)

/-- Feed a whole chunk sequence into the pending-buffer accumulator,
starting from an empty pending buffer. -/
def runAccumulator (needed : Nat) (chunks : List (List Byte)) :
    List (List Byte) × List Byte :=
  chunks.foldl (pushChunk needed) ([], [])

/-- One data event of the single-frame accumulator in startMic
(src/Me2You.js lines 155-179, also src/unnamed/part_001 lines 155-177 and
src/unnamed/part_000 lines 112-131): append the chunk; if at least `needed`
bytes are buffered, read the first `needed` bytes as one frame and reset the
buffer to empty, discarding any remainder. -/
def startMicPush (needed : Nat) (st : List (List Byte) × List Byte) (chunk : List Byte) :
    List (List Byte) × List Byte :=
  let buffer := st.2 ++ chunk
  if needed ≤ buffer.length then (st.1 ++ [buffer.take needed], []) else (st.1, buffer)

/-- Feed a chunk sequence into the single-frame startMic accumulator. -/
def runStartMic (needed : Nat) (chunks : List (List Byte)) :
    List (List Byte) × List Byte :=
  chunks.foldl (startMicPush needed) ([], [])

/-- Comparison used by the peak-search loop: the JS running maximum starts at
negative infinity (modelled `none`), which every value exceeds; otherwise
compare the rationals. -/
def jsGt (q : ℚ) : Option ℚ → Bool
  | none => true
  | some m => decide (m < q)

/-- Loop body of getDominantFrequency (src/unnamed/part_002 lines 65-70):
update the running pair of index and maximum at bin `i`. -/
def domStep (mags : List ℚ) (acc : Nat × Option ℚ) (i : Nat) : Nat × Option ℚ :=
  if jsGt (mags.getD i 0) acc.2 then (i, some (mags.getD i 0)) else acc

/-- Scan of getDominantFrequency: the source loop runs `i` from 1 while
`i < half` with `half = Math.floor(mags.length / 2)`, so it visits exactly
the bins 1 through half - 1. -/
def domScan (mags : List ℚ) : Nat × Option ℚ :=
  (List.range' 1 (mags.length / 2 - 1)).foldl (domStep mags) (0, none)

/-- Peak search of src/unnamed/part_002 lines 61-73 and src/Me2You.js lines
685-698.  The frequency is `idx * (sampleRate / mags.length)`; on the empty
list JS computes `0 * (sampleRate / 0) = 0 * Infinity = NaN`, modelled as
`none`.  The magnitude is the running maximum; it stays negative infinity
(modelled `none`) when the loop body never ran. -/
def getDominantFrequency (mags : List ℚ) (sampleRate : ℚ) : Option ℚ × Option ℚ :=
  let r := domScan mags
  let freq : Option ℚ :=
    if mags.length = 0 then none else some ((r.1 : ℚ) * (sampleRate / (mags.length : ℚ)))
  (freq, r.2)

/-- Tri-state interpretation (src/unnamed/part_002 lines 75-80).  In JS the
guard rejects falsy and NaN frequencies: both NaN (here `none`) and 0 give
MAYBE before the threshold tests run. -/
def interpretYesNo : Option ℚ → String
  | none => "MAYBE"
  | some f =>
      if f = 0 then "MAYBE"
      else if 1000 < f then "YES"
      else if f < 200 then "NO"
      else "MAYBE"

/-- Color bucketing (src/unnamed/part_002 lines 82-88); the same falsy/NaN
guard maps NaN (here `none`) and 0 to Gray before the buckets are tried. -/
def mapColor : Option ℚ → String
  | none => "Gray"
  | some f =>
      if f = 0 then "Gray"
      else if f < 300 then "Red"
      else if f < 700 then "Green"
      else if f < 1500 then "Blue"
      else "Violet"

/-- Magnitude gate of handleNewMessage (src/unnamed/part_002 line 128): the
JS test is mag truthy and mag greater than MIN_GOOD_MAG = 1000.  Negative
infinity (modelled `none`) is truthy in JS but fails the comparison; 0 is
falsy. -/
def magPasses : Option ℚ → Bool
  | none => false
  | some m => decide (m ≠ 0) && decide (1000 < m)

/-- Rendering of the one-decimal frequency for the message text; NaN renders
as the string NaN.  Digit-exact JS rounding is not load-bearing for any
claim; this renders round(10q) with one decimal digit. -/
def jsToFixed1 : Option ℚ → String
  | none => "NaN"
  | some q =>
      let n : Int := round (q * 10)
      (if n < 0 then "-" else "") ++
        toString (Int.natAbs n / 10) ++ "." ++ toString (Int.natAbs n % 10)

/-- Rendering of the rounded magnitude; rounding negative infinity (modelled
`none`) keeps negative infinity. -/
def jsRoundStr : Option ℚ → String
  | none => "-Infinity"
  | some q => toString (round q)

/-- Message composition (src/unnamed/part_002 lines 90-98): a base clause
from the tri-state, a color clause and a formatted peak clause. -/
def generateMessage (freq : Option ℚ) (yesNo color : String) (mag : Option ℚ) : String :=
  (if yesNo = "YES" then "Affirmative signal present. "
   else if yesNo = "NO" then "No clear signal. "
   else "Unclear response. ") ++
  ("Color: " ++ color ++ ". ") ++
  ("Peak: " ++ jsToFixed1 freq ++ " Hz (mag " ++ jsRoundStr mag ++ ").")

/-- Classification-and-synthesis part of handleNewMessage
(src/unnamed/part_002 lines 127-134): the yesNo, color and message triple
computed from the dominant frequency and peak magnitude. -/
def handleNewMessage (freq mag : Option ℚ) : String × String × String :=
  let yesNo := if magPasses mag then interpretYesNo freq else "MAYBE"
  let color := mapColor freq
  (yesNo, color, generateMessage freq yesNo color mag)

/-- State update of smoothFrequencies (src/unnamed/part_001 lines 44-46 and
src/Me2You.js lines 43-44): push the new spectrum, shift out the oldest when
the window exceeds K (FFT_SMOOTHING). -/
def smoothPush (K : Nat) (st : List (List ℚ)) (mags : List ℚ) : List (List ℚ) :=
  let st' := st ++ [mags]
  if K < st'.length then st'.drop 1 else st'

/-- Output of smoothFrequencies given the post-push window (src/unnamed/
part_001 lines 47-53): elementwise mean over the window, one entry per index
of the incoming spectrum.  The source reads each buffer at index i; the
claims concern uniform-length runs, where getD with default 0 agrees with
the source read. -/
def smoothOut (st : List (List ℚ)) (mags : List ℚ) : List ℚ :=
  (List.range mags.length).map fun i =>
    (st.map fun buf => buf.getD i 0).sum / (st.length : ℚ)

/-- smoothFrequencies (src/unnamed/part_001 lines 43-54): push the spectrum,
return the window mean together with the new window. -/
def smoothFrequencies (K : Nat) (st : List (List ℚ)) (mags : List ℚ) :
    List ℚ × List (List ℚ) :=
  let st' := smoothPush K st mags
  (smoothOut st' mags, st')

/-- Window state after feeding the spectra of `specs` in order, starting
from window `st`. -/
def runSmootherFrom (K : Nat) (st : List (List ℚ)) (specs : List (List ℚ)) :
    List (List ℚ) :=
  specs.foldl (smoothPush K) st

/-- Quote escaping applied by notifyWebhook to the JSON payload before
embedding it in the shell command (src/unnamed/part_002 line 122). -/
def escapeQuotes (s : String) : String := s.replace "\"" "\\\""

/-- Shell command built by notifyWebhook for one POST delivery attempt. -/
def curlCmd (url body : String) : String :=
  "curl -s -X POST -H \"Content-Type: application/json\" -d \"" ++ body ++ "\" "
    ++ url ++ " >/dev/null 2>&1"

/-- Shell commands issued by notifyWebhook (src/unnamed/part_002 lines
119-125): nothing when no webhook URL is configured, otherwise exactly one
curl POST; the exec completion callback does nothing, so no retry ever
happens. -/
def notifyWebhook (webhookUrl : String) (payloadJson : String) : List String :=
  if webhookUrl = "" then [] else [curlCmd webhookUrl (escapeQuotes payloadJson)]

/-- Alphabet of standard base64. -/
def base64Chars : List Char :=
  "ABCDEFGHIJKLMNOPQRSTUVWXYZabcdefghijklmnopqrstuvwxyz0123456789+/".toList

/-- Character of standard base64 at a 6-bit index. -/
def b64c (n : Nat) : Char := base64Chars.getD n 'A'

/-- Standard base64 encoding of a byte list. -/
def base64Encode : List Nat → String
  | [] => ""
  | [a] => String.mk [b64c (a / 4), b64c (a % 4 * 16)] ++ "=="
  | [a, b] =>
      String.mk [b64c (a / 4), b64c (a % 4 * 16 + b / 16), b64c (b % 16 * 4)] ++ "="
  | a :: b :: c :: rest =>
      String.mk [b64c (a / 4), b64c (a % 4 * 16 + b / 16),
        b64c (b % 16 * 4 + c / 64), b64c (c % 64)] ++ base64Encode rest

/-- View of a byte list as the string it spells. -/
def stringOfBytes (l : List Nat) : String := String.mk (l.map Char.ofNat)

/-- Modelled from the spec: the encrypted-webhook body (spec sections 4.6 and
6).  No encryption code exists under src/ (notifyWebhook always transmits
the plain JSON payload), so the authenticated wrapping is modelled from the
spec words: with a key configured, the transmitted body is base64 of nonce,
then authentication tag, then ciphertext, of the JSON-encoded payload bytes.
The AEAD primitive (returning ciphertext and tag) and the per-call nonce are
parameters, since the randomness of a fresh nonce lies outside the
embedding.  Without a key the plain payload bytes are the body. -/
def webhookBody (encKey : Option (List Nat))
    (aead : List Nat → List Nat → List Nat → List Nat × List Nat)
    (nonce : List Nat) (payloadJson : List Nat) : String :=
  match encKey with
  | some k =>
      base64Encode (nonce ++ (aead k nonce payloadJson).2 ++ (aead k nonce payloadJson).1)
  | none => stringOfBytes payloadJson

/-- Indices of the subscribers that receive a broadcast write, counting from
`s`: the per-subscriber try/catch of broadcastToSSE (src/unnamed/part_002
lines 100-105) delivers to each subscriber whose write succeeds and silently
ignores each subscriber whose write throws. -/
def sseLoop (s : Nat) : List Bool → List Nat
  | [] => []
  | ok :: rest => if ok then s :: sseLoop (s + 1) rest else sseLoop (s + 1) rest

/-- Outcome of one fan-out by handleNewMessage over its sinks. -/
structure DispatchOutcome where
  logDelivered : Bool
  recordedErrors : List String
  sseDelivered : List Nat
  ttsAttempted : Bool
  webhookAttempted : Bool
deriving DecidableEq

/-- Sink fan-out of handleNewMessage (src/unnamed/part_002 lines 134-142).
The durable log write is guarded inside appendLog (lines 29-35): on failure
it records a log-write error and continues.  The broadcast write to each SSE
subscriber is guarded per subscriber and a failure is ignored (lines
100-105).  The TTS and webhook sinks are fire-and-forget exec calls whose
callbacks ignore errors (lines 107-125); they are attempted whenever their
feature is configured, regardless of any other sink.  `logFails` and the
entries of `clients` say which deliveries throw (a false entry is a
subscriber whose write throws). -/
def dispatchSinks (logFails : Bool) (clients : List Bool) (enableTts : Bool)
    (webhookUrl : String) : DispatchOutcome :=
  { logDelivered := !logFails
    recordedErrors := if logFails then ["Log write failed"] else []
    sseDelivered := sseLoop 0 clients
    ttsAttempted := enableTts
    webhookAttempted := if webhookUrl = "" then false else true }

/-- Actions a capture close handler performs. -/
inductive CloseAction where
  | logClose : CloseAction
  | setRunningFalse : CloseAction
  | scheduleRestart : Nat → CloseAction
deriving DecidableEq

/-- Close handler of the arecord-based startMic (src/Me2You.js line 183,
also lines 330 and 454-457 and src/unnamed/part_001 line 181): log the exit
code and schedule startMic again after 1000 ms, for every exit code. -/
def startMicOnClose (_code : Int) : List CloseAction :=
  [CloseAction.logClose, CloseAction.scheduleRestart 1000]

/-- Close handler of the node-record stream in startRecording
(src/Me2You.js lines 828-831): log and clear the running flag; no restart is
scheduled. -/
def startRecordingOnClose : List CloseAction :=
  [CloseAction.logClose, CloseAction.setRunningFalse]

/-- Close handler of arecord in src/unnamed/part_000 lines 138-140: log the
exit code only; no restart is scheduled. -/
def part000OnClose (_code : Int) : List CloseAction :=
  [CloseAction.logClose]

/-- Dominant-bin search as the spec words it (spec section 4.4 step 1): scan
the bins 1 through floor(N/2) inclusive.  Written from the spec words for
comparison with domScan, which is the source translation. -/
def specDominantScan (mags : List ℚ) : Nat × Option ℚ :=
  (List.range' 1 (mags.length / 2)).foldl (domStep mags) (0, none)

lemma mem_sseLoop (clients : List Bool) : ∀ (s i : Nat),
    i ∈ sseLoop s clients ↔
      (s ≤ i ∧ i - s < clients.length ∧ clients.getD (i - s) false = true) := by
  induction clients with
  | nil => intro s i; simp [sseLoop]
  | cons ok rest ih =>
    intro s i
    by_cases hok : ok = true
    · simp only [sseLoop, hok, if_true, List.mem_cons]
      constructor
      · rintro (rfl | h)
        · exact ⟨le_refl i, by simp, by simp [List.getD_cons_zero, hok]⟩
        · obtain ⟨h1, h2, h3⟩ := (ih (s + 1) i).mp h
          refine ⟨by omega, by simp; omega, ?_⟩
          rw [show i - s = (i - (s + 1)) + 1 by omega, List.getD_cons_succ]
          exact h3
      · rintro ⟨h1, h2, h3⟩
        by_cases hi : i = s
        · exact Or.inl hi
        · refine Or.inr ((ih (s + 1) i).mpr ⟨by omega, ?_, ?_⟩)
          · simp at h2; omega
          · rw [show i - s = (i - (s + 1)) + 1 by omega, List.getD_cons_succ] at h3
            exact h3
    · have hok' : ok = false := by
        cases ok
        · rfl
        · exact absurd rfl hok
      simp only [sseLoop, hok', if_false, Bool.false_eq_true]
      constructor
      · intro h
        obtain ⟨h1, h2, h3⟩ := (ih (s + 1) i).mp h
        refine ⟨by omega, by simp; omega, ?_⟩
        rw [show i - s = (i - (s + 1)) + 1 by omega, List.getD_cons_succ]
        exact h3
      · rintro ⟨h1, h2, h3⟩
        have hi : i ≠ s := by
          intro hie
          rw [hie, Nat.sub_self, List.getD_cons_zero] at h3
          exact absurd h3 (by simp)
        refine (ih (s + 1) i).mpr ⟨by omega, by simp at h2; omega, ?_⟩
        rw [show i - s = (i - (s + 1)) + 1 by omega, List.getD_cons_succ] at h3
        exact h3

/-- C4 (confirmed, encrypted branch modelled from the spec): the webhook sink
makes at most one delivery attempt per message, with no retry and no backoff:
an empty configured URL yields no attempt and a configured URL yields exactly
one curl POST whose completion callback does nothing.  In the spec-modelled
encrypted variant, a configured key makes the transmitted body base64 of
nonce, authentication tag and ciphertext of the JSON payload bytes, and
without a key the plain payload is the body. -/
theorem c4_webhook_fire_and_forget (url payloadJson : String)
    (encKey : Option (List Nat))
    (aead : List Nat → List Nat → List Nat → List Nat × List Nat)
    (nonce payloadBytes : List Nat) :
    (notifyWebhook url payloadJson).length ≤ 1
    ∧ (url = "" → notifyWebhook url payloadJson = [])
    ∧ (url ≠ "" → notifyWebhook url payloadJson = [curlCmd url (escapeQuotes payloadJson)])
    ∧ (∀ k, encKey = some k →
        webhookBody encKey aead nonce payloadBytes
          = base64Encode (nonce ++ (aead k nonce payloadBytes).2 ++ (aead k nonce payloadBytes).1))
    ∧ (encKey = none → webhookBody encKey aead nonce payloadBytes = stringOfBytes payloadBytes) := by
  refine ⟨?_, ?_, ?_, ?_, ?_⟩
  · unfold notifyWebhook
    split <;> simp
  · intro h; simp [notifyWebhook, h]
  · intro h; simp [notifyWebhook, h]
  · intro k hk; subst hk; rfl
  · intro h; subst h; rfl

/-- Witness for C4: with a configured URL the sink issues exactly the single
curl command. -/
theorem c4_webhook_fire_and_forget_witness :
    notifyWebhook "https://h.example/x" "p" = [curlCmd "https://h.example/x" (escapeQuotes "p")] :=
  (c4_webhook_fire_and_forget "https://h.example/x" "p" none (fun _ _ _ => ([], [])) [] []).2.2.1
    (by decide)

/-- C6 counterexample: a dominant frequency of 0 is defined (neither
undefined nor NaN) and lies below 300 Hz, so the claimed bucketing demands
Red, but mapColor returns the neutral Gray for it. -/
theorem c6_zero_frequency_gray :
    mapColor (some (0 : ℚ)) = "Gray" ∧ ("Gray" : String) ≠ "Red" ∧ (0 : ℚ) < 300 := by
  refine ⟨rfl, by decide, by norm_num⟩

/-- C6 (corrected): the color label follows the ordered buckets Red, Green,
Blue, Violet for nonzero frequencies, NaN maps to Gray, but a zero frequency
also maps to Gray rather than Red; and the synthetic spectrum with a single
dominant bin at 1500 Hz and magnitude above the floor yields YES and
Violet. -/
theorem c6_color_buckets :
    (∀ f : ℚ, f ≠ 0 → f < 300 → mapColor (some f) = "Red")
    ∧ (∀ f : ℚ, 300 ≤ f → f < 700 → mapColor (some f) = "Green")
    ∧ (∀ f : ℚ, 700 ≤ f → f < 1500 → mapColor (some f) = "Blue")
    ∧ (∀ f : ℚ, 1500 ≤ f → mapColor (some f) = "Violet")
    ∧ mapColor none = "Gray" ∧ mapColor (some 0) = "Gray"
    ∧ (handleNewMessage
        (getDominantFrequency (List.replicate 3 (0 : ℚ) ++ 2000 :: List.replicate 28 0) 16000).1
        (getDominantFrequency (List.replicate 3 (0 : ℚ) ++ 2000 :: List.replicate 28 0) 16000).2).1
        = "YES"
    ∧ (handleNewMessage
        (getDominantFrequency (List.replicate 3 (0 : ℚ) ++ 2000 :: List.replicate 28 0) 16000).1
        (getDominantFrequency (List.replicate 3 (0 : ℚ) ++ 2000 :: List.replicate 28 0) 16000).2).2.1
        = "Violet" := by
  have hscan : domScan (List.replicate 3 (0 : ℚ) ++ 2000 :: List.replicate 28 0)
      = (3, some 2000) := by decide
  have hfreq : getDominantFrequency (List.replicate 3 (0 : ℚ) ++ 2000 :: List.replicate 28 0) 16000
      = (some 1500, some 2000) := by
    simp only [getDominantFrequency, hscan]
    norm_num
  refine ⟨?_, ?_, ?_, ?_, rfl, rfl, by rw [hfreq]; decide, by rw [hfreq]; decide⟩
  · intro f h0 h3
    simp only [mapColor]
    rw [if_neg h0, if_pos h3]
  · intro f h3 h7
    have h0 : ¬ f = 0 := by intro h; rw [h] at h3; norm_num at h3
    simp only [mapColor]
    rw [if_neg h0, if_neg (not_lt.mpr h3), if_pos h7]
  · intro f h7 h15
    have h0 : ¬ f = 0 := by intro h; rw [h] at h7; norm_num at h7
    have h3 : ¬ f < 300 := by intro h; linarith
    simp only [mapColor]
    rw [if_neg h0, if_neg h3, if_neg (not_lt.mpr h7), if_pos h15]
  · intro f h15
    have h0 : ¬ f = 0 := by intro h; rw [h] at h15; norm_num at h15
    have h3 : ¬ f < 300 := by intro h; linarith
    have h7 : ¬ f < 700 := by intro h; linarith
    simp only [mapColor]
    rw [if_neg h0, if_neg h3, if_neg h7, if_neg (not_lt.mpr h15)]

/-- Witness for C6: a frequency of 100 Hz falls in the Red bucket. -/
theorem c6_color_buckets_witness : mapColor (some (100 : ℚ)) = "Red" :=
  c6_color_buckets.1 100 (by norm_num) (by norm_num)

/-- C8 counterexample: with one SSE subscriber whose write throws, every
other sink still receives or attempts the message, but nothing is recorded
about the failure: the per-subscriber catch ignores it, refuting that every
sink failure is recorded. -/
theorem c8_sse_failure_not_recorded :
    (dispatchSinks false [false] true "https://h.example/x").recordedErrors = []
    ∧ (dispatchSinks false [false] true "https://h.example/x").sseDelivered = []
    ∧ (dispatchSinks false [false] true "https://h.example/x").logDelivered = true
    ∧ (dispatchSinks false [false] true "https://h.example/x").ttsAttempted = true
    ∧ (dispatchSinks false [false] true "https://h.example/x").webhookAttempted = true := by
  refine ⟨rfl, rfl, rfl, rfl, by decide⟩

/-- C8 (corrected): sink deliveries are isolated: the SSE deliveries do not
depend on a log failure, the TTS and webhook attempts happen whenever
configured regardless of other sinks, and exactly the subscribers whose
writes succeed receive the broadcast.  A log failure is caught and recorded;
subscriber, TTS and webhook failures are caught but silently ignored. -/
theorem c8_sink_isolation (logFails : Bool) (clients : List Bool)
    (enableTts : Bool) (url : String) :
    (dispatchSinks logFails clients enableTts url).sseDelivered
        = (dispatchSinks false clients enableTts url).sseDelivered
    ∧ (dispatchSinks logFails clients enableTts url).ttsAttempted = enableTts
    ∧ (url ≠ "" → (dispatchSinks logFails clients enableTts url).webhookAttempted = true)
    ∧ (logFails = true → (dispatchSinks logFails clients enableTts url).logDelivered = false
        ∧ "Log write failed" ∈ (dispatchSinks logFails clients enableTts url).recordedErrors)
    ∧ (logFails = false → (dispatchSinks logFails clients enableTts url).logDelivered = true
        ∧ (dispatchSinks logFails clients enableTts url).recordedErrors = [])
    ∧ (∀ i, i ∈ (dispatchSinks logFails clients enableTts url).sseDelivered
        ↔ (i < clients.length ∧ clients.getD i false = true)) := by
  refine ⟨rfl, rfl, ?_, ?_, ?_, ?_⟩
  · intro h; simp [dispatchSinks, h]
  · intro h; subst h; exact ⟨rfl, by simp [dispatchSinks]⟩
  · intro h; subst h; exact ⟨rfl, rfl⟩
  · intro i
    have h := mem_sseLoop clients 0 i
    simpa [dispatchSinks] using h

/-- Witness for C8: a failing log write is recorded while the webhook is
still attempted. -/
theorem c8_sink_isolation_witness :
    "Log write failed" ∈ (dispatchSinks true [true] true "https://h.example/x").recordedErrors
    ∧ (dispatchSinks true [true] true "https://h.example/x").webhookAttempted = true :=
  ⟨((c8_sink_isolation true [true] true "https://h.example/x").2.2.2.1 rfl).2,
   (c8_sink_isolation true [true] true "https://h.example/x").2.2.1 (by decide)⟩

/-- C9 counterexample: the close handler of startRecording never schedules a
restart (it only logs and clears the running flag), and neither does the
close handler of the capture loop in part_000, so capture stays stopped
there, refuting that every termination schedules a restart. -/
theorem c9_startRecording_no_restart :
    CloseAction.scheduleRestart 1000 ∉ startRecordingOnClose
    ∧ startRecordingOnClose = [CloseAction.logClose, CloseAction.setRunningFalse]
    ∧ part000OnClose 0 = [CloseAction.logClose]
    ∧ CloseAction.scheduleRestart 1000 ∉ part000OnClose 0 := by
  refine ⟨by decide, rfl, rfl, by decide⟩

/-- C9 (corrected): the arecord-based startMic close handler schedules a
restart after exactly 1000 ms for every exit code, with no other delay ever
scheduled (no backoff, no restart ceiling); but the startRecording stream
close handler and the part_000 close handler never schedule any restart. -/
theorem c9_restart_wiring :
    (∀ code : Int, startMicOnClose code
        = [CloseAction.logClose, CloseAction.scheduleRestart 1000])
    ∧ (∀ code : Int, CloseAction.scheduleRestart 1000 ∈ startMicOnClose code)
    ∧ (∀ code : Int, ∀ d : Nat, d ≠ 1000 →
        CloseAction.scheduleRestart d ∉ startMicOnClose code)
    ∧ (∀ d : Nat, CloseAction.scheduleRestart d ∉ startRecordingOnClose)
    ∧ (∀ code : Int, ∀ d : Nat, CloseAction.scheduleRestart d ∉ part000OnClose code) := by
  refine ⟨fun _ => rfl, ?_, ?_, ?_, ?_⟩
  · intro code
    simp [startMicOnClose]
  · intro _ d hd
    simp [startMicOnClose, hd]
  · intro d
    simp [startRecordingOnClose]
  · intro _ d
    simp [part000OnClose]

/-- Witness for C9: a 500 ms restart is never scheduled by the startMic
close handler. -/
theorem c9_restart_wiring_witness :
    CloseAction.scheduleRestart 500 ∉ startMicOnClose 0 :=
  c9_restart_wiring.2.2.1 0 500 (by decide)

/-- C10 counterexample: on the empty magnitude list the source computes the
frequency as 0 times sampleRate divided by 0, which is NaN in JS (modelled
as none), not the claimed frequency 0. -/
theorem c10_empty_list_nan_frequency :
    getDominantFrequency ([] : List ℚ) 16000 = (none, none)
    ∧ (none : Option ℚ) ≠ some 0 := by
  refine ⟨rfl, by decide⟩

/-- C10 (corrected): for every nonempty magnitude list of length at most 3
the scan range is empty, so no bin comparison happens and the result is
frequency 0 with magnitude negative infinity (modelled none), and no error;
downstream this sentinel classifies as MAYBE with the Gray label.  The
empty list instead yields a NaN frequency. -/
theorem c10_short_list_sentinel (mags : List ℚ) (rate : ℚ)
    (h1 : 1 ≤ mags.length) (h3 : mags.length ≤ 3) :
    getDominantFrequency mags rate = (some 0, none)
    ∧ List.range' 1 (mags.length / 2 - 1) = []
    ∧ (handleNewMessage (some (0 : ℚ)) (none : Option ℚ)).1 = "MAYBE"
    ∧ (handleNewMessage (some (0 : ℚ)) (none : Option ℚ)).2.1 = "Gray" := by
  have hh : mags.length / 2 - 1 = 0 := by omega
  have hscan : domScan mags = (0, none) := by
    unfold domScan
    rw [hh]
    rfl
  refine ⟨?_, by rw [hh]; rfl, by decide, by decide⟩
  unfold getDominantFrequency
  rw [hscan]
  have hne : ¬ mags.length = 0 := by omega
  simp [hne]

/-- Witness for C10: the one-element list gives the sentinel pair. -/
theorem c10_short_list_sentinel_witness :
    getDominantFrequency ([7] : List ℚ) 16000 = (some 0, none) :=
  (c10_short_list_sentinel [7] 16000 (by decide) (by decide)).1

lemma emitFrames_pos (needed : Nat) (pending : List Byte)
    (h : 0 < needed) (h2 : needed ≤ pending.length) :
    emitFrames needed pending =
      (pending.take needed :: (emitFrames needed (pending.drop needed)).1,
       (emitFrames needed (pending.drop needed)).2) := by
  rw [emitFrames]
  simp [h, h2]

lemma emitFrames_neg (needed : Nat) (pending : List Byte)
    (h : ¬ needed ≤ pending.length) :
    emitFrames needed pending = ([], pending) := by
  rw [emitFrames]
  simp [h]

lemma emitFrames_spec (needed : Nat) (hn : 0 < needed) (pending : List Byte) :
    (emitFrames needed pending).1.flatten ++ (emitFrames needed pending).2 = pending
    ∧ (∀ f ∈ (emitFrames needed pending).1, f.length = needed)
    ∧ (emitFrames needed pending).2.length < needed := by
  have main : ∀ (N : Nat) (pending : List Byte), pending.length ≤ N →
      (emitFrames needed pending).1.flatten ++ (emitFrames needed pending).2 = pending
      ∧ (∀ f ∈ (emitFrames needed pending).1, f.length = needed)
      ∧ (emitFrames needed pending).2.length < needed := by
    intro N
    induction N with
    | zero =>
      intro pending hp
      have hc : ¬ needed ≤ pending.length := by omega
      rw [emitFrames_neg needed pending hc]
      refine ⟨by simp, by simp, ?_⟩
      show pending.length < needed
      omega
    | succ N ih =>
      intro pending hp
      by_cases hc : needed ≤ pending.length
      · rw [emitFrames_pos needed pending hn hc]
        obtain ⟨ha, hb, hcc⟩ := ih (pending.drop needed)
          (by simp only [List.length_drop]; omega)
        refine ⟨?_, ?_, by simpa using hcc⟩
        · simp only [List.flatten_cons, List.append_assoc]
          rw [ha]
          exact List.take_append_drop needed pending
        · intro f hf
          simp only [List.mem_cons] at hf
          rcases hf with rfl | hf
          · simp only [List.length_take]
            omega
          · exact hb f hf
      · rw [emitFrames_neg needed pending hc]
        refine ⟨by simp, by simp, ?_⟩
        show pending.length < needed
        omega
  exact main pending.length pending le_rfl

lemma runAccumulator_inv (needed : Nat) (hn : 0 < needed) :
    ∀ (chunks : List (List Byte)) (st : List (List Byte) × List Byte),
      (∀ f ∈ st.1, f.length = needed) → st.2.length < needed →
      ((chunks.foldl (pushChunk needed) st).1.flatten
          ++ (chunks.foldl (pushChunk needed) st).2
        = st.1.flatten ++ st.2 ++ chunks.flatten)
      ∧ (∀ f ∈ (chunks.foldl (pushChunk needed) st).1, f.length = needed)
      ∧ (chunks.foldl (pushChunk needed) st).2.length < needed := by
  intro chunks
  induction chunks with
  | nil =>
    intro st h1 h2
    exact ⟨by simp, h1, h2⟩
  | cons c rest ih =>
    intro st h1 h2
    obtain ⟨ha, hb, hc⟩ := emitFrames_spec needed hn (st.2 ++ c)
    have hpush1 : ∀ f ∈ (pushChunk needed st c).1, f.length = needed := by
      intro f hf
      simp only [pushChunk, List.mem_append] at hf
      rcases hf with hf | hf
      · exact h1 f hf
      · exact hb f hf
    have hpush2 : (pushChunk needed st c).2.length < needed := hc
    obtain ⟨ra, rb, rc⟩ := ih (pushChunk needed st c) hpush1 hpush2
    refine ⟨?_, ?_, ?_⟩
    · simp only [List.foldl_cons]
      rw [ra]
      simp only [pushChunk, List.flatten_cons, List.flatten_append, List.append_assoc]
      have hkey : (emitFrames needed (st.2 ++ c)).1.flatten
          ++ ((emitFrames needed (st.2 ++ c)).2 ++ rest.flatten)
          = st.2 ++ (c ++ rest.flatten) := by
        rw [← List.append_assoc, ha, List.append_assoc]
      rw [hkey]
    · simpa only [List.foldl_cons] using rb
    · simpa only [List.foldl_cons] using rc

/-- C1 counterexample: the single-frame accumulator of startMic
(src/Me2You.js lines 155-179) resets its buffer to empty after reading one
frame, so pushing ten bytes with a four-byte frame size emits one frame and
discards six bytes: the emitted frames plus the remainder do not reconstruct
the input stream. -/
theorem c1_startMic_drops_remainder :
    (runStartMic 4 [[0, 1, 2, 3, 4, 5, 6, 7, 8, 9]]).1.flatten
        ++ (runStartMic 4 [[0, 1, 2, 3, 4, 5, 6, 7, 8, 9]]).2
      = [0, 1, 2, 3]
    ∧ ([[0, 1, 2, 3, 4, 5, 6, 7, 8, 9]] : List (List Byte)).flatten
        = [0, 1, 2, 3, 4, 5, 6, 7, 8, 9]
    ∧ ([0, 1, 2, 3] : List Byte) ≠ [0, 1, 2, 3, 4, 5, 6, 7, 8, 9] := by
  refine ⟨by decide, by decide, by decide⟩

/-- C1 (corrected): the pending-buffer accumulator of
startMicrophoneCapture and startRecording satisfies the claim: frames are
emitted in arrival order, every frame has exactly the configured byte
length, the loop repeats while enough bytes remain, and the emitted frames
followed by the trailing remainder (always shorter than one frame)
reconstruct the input byte stream; the single-frame startMic accumulator
does not satisfy it. -/
theorem c1_frame_accumulator_reconstruction (needed : Nat) (hn : 0 < needed)
    (chunks : List (List Byte)) :
    (runAccumulator needed chunks).1.flatten ++ (runAccumulator needed chunks).2
        = chunks.flatten
    ∧ (∀ f ∈ (runAccumulator needed chunks).1, f.length = needed)
    ∧ (runAccumulator needed chunks).2.length < needed := by
  have h := runAccumulator_inv needed hn chunks ([], []) (by simp) (by simpa using hn)
  simpa [runAccumulator] using h

/-- Witness for C1: two chunks of three and eight bytes at frame size four
reconstruct to the input stream. -/
theorem c1_frame_accumulator_reconstruction_witness :
    (runAccumulator 4 [[0, 1, 2], [3, 4, 5, 6, 7, 8, 9, 10]]).1.flatten
        ++ (runAccumulator 4 [[0, 1, 2], [3, 4, 5, 6, 7, 8, 9, 10]]).2
      = ([[0, 1, 2], [3, 4, 5, 6, 7, 8, 9, 10]] : List (List Byte)).flatten :=
  (c1_frame_accumulator_reconstruction 4 (by decide) [[0, 1, 2], [3, 4, 5, 6, 7, 8, 9, 10]]).1

lemma domStep_updates (mags : List ℚ) (acc : Nat × Option ℚ) (i : Nat)
    (h : jsGt (mags.getD i 0) acc.2 = true) :
    domStep mags acc i = (i, some (mags.getD i 0)) := by
  unfold domStep
  rw [h]
  simp

lemma domStep_keeps (mags : List ℚ) (acc : Nat × Option ℚ) (i : Nat)
    (h : jsGt (mags.getD i 0) acc.2 = false) :
    domStep mags acc i = acc := by
  unfold domStep
  rw [h]
  simp

lemma domScanAux (mags : List ℚ) :
    ∀ k : Nat, 1 ≤ k →
      ∃ i : Nat,
        (List.range' 1 k).foldl (domStep mags) (0, none) = (i, some (mags.getD i 0))
        ∧ 1 ≤ i ∧ i ≤ k
        ∧ ∀ j, 1 ≤ j → j ≤ k → mags.getD j 0 ≤ mags.getD i 0 := by
  intro k
  induction k with
  | zero => intro h; omega
  | succ k ih =>
    intro _
    by_cases hk : 1 ≤ k
    · obtain ⟨i, hfold, h1, hik, hmax⟩ := ih hk
      have hconcat0 : List.range' 1 (k + 1) 1 = List.range' 1 k 1 ++ [1 + 1 * k] :=
        List.range'_concat 1 k
      have hconcat : List.range' 1 (k + 1) = List.range' 1 k ++ [1 + k] := by
        simpa using hconcat0
      rw [hconcat, List.foldl_append, hfold]
      simp only [List.foldl_cons, List.foldl_nil]
      by_cases hgt : mags.getD i 0 < mags.getD (1 + k) 0
      · refine ⟨1 + k, ?_, by omega, by omega, ?_⟩
        · have hj : jsGt (mags.getD (1 + k) 0) ((i, some (mags.getD i 0)) : Nat × Option ℚ).2
              = true := by
            simpa [jsGt] using hgt
          exact domStep_updates mags (i, some (mags.getD i 0)) (1 + k) hj
        · intro j hj1 hj2
          rcases Nat.lt_or_ge j (k + 1) with hj | hj
          · exact le_trans (hmax j hj1 (by omega)) (le_of_lt hgt)
          · have hje : j = 1 + k := by omega
            rw [hje]
      · refine ⟨i, ?_, h1, by omega, ?_⟩
        · have hj : jsGt (mags.getD (1 + k) 0) ((i, some (mags.getD i 0)) : Nat × Option ℚ).2
              = false := by
            simpa [jsGt] using not_lt.mp hgt
          exact domStep_keeps mags (i, some (mags.getD i 0)) (1 + k) hj
        · intro j hj1 hj2
          rcases Nat.lt_or_ge j (k + 1) with hj | hj
          · exact hmax j hj1 (by omega)
          · have hje : j = 1 + k := by omega
            rw [hje]
            exact not_lt.mp hgt
    · have hk0 : k = 0 := by omega
      subst hk0
      refine ⟨1, ?_, le_refl 1, le_refl 1, ?_⟩
      · rw [List.range'_one]
        simp [domStep, jsGt]
      · intro j hj1 hj2
        have hje : j = 1 := by omega
        rw [hje]

lemma domScan_spec (mags : List ℚ) (h2 : 2 ≤ mags.length / 2) :
    1 ≤ (domScan mags).1 ∧ (domScan mags).1 < mags.length / 2
    ∧ (domScan mags).2 = some (mags.getD (domScan mags).1 0)
    ∧ ∀ j, 1 ≤ j → j < mags.length / 2 → mags.getD j 0 ≤ mags.getD (domScan mags).1 0 := by
  obtain ⟨i, hfold, h1, hik, hmax⟩ := domScanAux mags (mags.length / 2 - 1) (by omega)
  unfold domScan
  rw [hfold]
  refine ⟨h1, ?_, rfl, ?_⟩
  · show i < mags.length / 2
    omega
  · intro j hj1 hj2
    exact hmax j hj1 (by omega)

lemma domScan_small (mags : List ℚ) (h : mags.length / 2 ≤ 1) : domScan mags = (0, none) := by
  unfold domScan
  have h0 : mags.length / 2 - 1 = 0 := by omega
  rw [h0]
  rfl

lemma domScan_snd_some (mags : List ℚ) (M : ℚ) (h : (domScan mags).2 = some M) :
    2 ≤ mags.length / 2 := by
  by_contra hc
  push_neg at hc
  rw [domScan_small mags (by omega)] at h
  simp at h

/-- C3 counterexample: on the four-bin spectrum with magnitudes 0, 1, 5, 0
the source scan stops before bin floor(N/2) = 2, so it returns bin 1 with
magnitude 1 although the maximal magnitude over bins 1..2 is 5 at bin 2;
the spec-worded scan over bins 1..floor(N/2) returns bin 2 instead. -/
theorem c3_scan_excludes_nyquist_bin :
    domScan [0, 1, 5, 0] = (1, some 1)
    ∧ specDominantScan [0, 1, 5, 0] = (2, some 5)
    ∧ (getDominantFrequency [0, 1, 5, 0] 16000).2 = some 1
    ∧ ([0, 1, 5, 0] : List ℚ).getD 2 0 = 5
    ∧ ¬ ((5 : ℚ) ≤ 1) := by
  refine ⟨by decide, by decide, by decide, by decide, by norm_num⟩

/-- C3 (corrected): the dominant-frequency search scans exactly the bins 1
through floor(N/2) - 1 (both the DC bin and the Nyquist bin floor(N/2) are
excluded), returns a bin of that range carrying the maximal magnitude over
that range together with that magnitude, and converts the bin index to the
frequency bin * sampleRate / N. -/
theorem c3_dominant_scan_range (mags : List ℚ) (rate : ℚ) (h2 : 2 ≤ mags.length / 2) :
    1 ≤ (domScan mags).1
    ∧ (domScan mags).1 < mags.length / 2
    ∧ (domScan mags).2 = some (mags.getD (domScan mags).1 0)
    ∧ (∀ j, 1 ≤ j → j < mags.length / 2 → mags.getD j 0 ≤ mags.getD (domScan mags).1 0)
    ∧ getDominantFrequency mags rate
        = (some (((domScan mags).1 : ℚ) * (rate / (mags.length : ℚ))), (domScan mags).2) := by
  obtain ⟨h1, hlt, hsnd, hmax⟩ := domScan_spec mags h2
  refine ⟨h1, hlt, hsnd, hmax, ?_⟩
  have hne : ¬ mags.length = 0 := by omega
  simp [getDominantFrequency, hne]

/-- Witness for C3: an eight-bin spectrum whose scanned maximum sits at
bin 2. -/
theorem c3_dominant_scan_range_witness :
    2 ≤ ([0, 1, 5, 0, 0, 9, 2, 1] : List ℚ).length / 2
    ∧ 1 ≤ (domScan [0, 1, 5, 0, 0, 9, 2, 1]).1 :=
  ⟨by decide, (c3_dominant_scan_range [0, 1, 5, 0, 0, 9, 2, 1] 16000 (by decide)).1⟩

/-- C5 (confirmed): for every spectrum, when the peak magnitude passes the
minimum-magnitude floor the tri-state is YES exactly when the dominant
frequency exceeds 1000 Hz, NO exactly when it is below 200 Hz and MAYBE
otherwise; when the peak magnitude fails the floor the tri-state is MAYBE
regardless of the frequency.  The floor can only pass when the scan ran, so
the dominant frequency is positive and the zero/NaN guard never fires. -/
theorem c5_tristate_decision (mags : List ℚ) (freq mag : Option ℚ)
    (hfm : getDominantFrequency mags 16000 = (freq, mag)) :
    (magPasses mag = false → (handleNewMessage freq mag).1 = "MAYBE")
    ∧ (∀ f : ℚ, magPasses mag = true → freq = some f →
        (((handleNewMessage freq mag).1 = "YES" ↔ 1000 < f)
         ∧ ((handleNewMessage freq mag).1 = "NO" ↔ f < 200)
         ∧ ((handleNewMessage freq mag).1 = "MAYBE" ↔ (200 ≤ f ∧ f ≤ 1000)))) := by
  constructor
  · intro h
    simp [handleNewMessage, h]
  · intro f hpass hf
    have hmag : mag = (domScan mags).2 := by
      have h := congrArg Prod.snd hfm
      simpa [getDominantFrequency] using h.symm
    obtain ⟨M, hM⟩ : ∃ M, (domScan mags).2 = some M := by
      rw [← hmag]
      cases mag with
      | none => simp [magPasses] at hpass
      | some M => exact ⟨M, rfl⟩
    have h2 : 2 ≤ mags.length / 2 := domScan_snd_some mags M hM
    obtain ⟨h1i, hlt, hsnd, hmax⟩ := domScan_spec mags h2
    have hne : ¬ mags.length = 0 := by omega
    have hfreq : freq = some (((domScan mags).1 : ℚ) * (16000 / (mags.length : ℚ))) := by
      have h := congrArg Prod.fst hfm
      simp [getDominantFrequency, hne] at h
      exact h.symm
    have hfval : f = ((domScan mags).1 : ℚ) * (16000 / (mags.length : ℚ)) := by
      rw [hfreq] at hf
      exact (Option.some.inj hf).symm
    have hfpos : 0 < f := by
      rw [hfval]
      have hlp : (0 : ℚ) < (mags.length : ℚ) := by
        exact_mod_cast (by omega : 0 < mags.length)
      have hrp : (0 : ℚ) < 16000 / (mags.length : ℚ) := div_pos (by norm_num) hlp
      have hip : (0 : ℚ) < ((domScan mags).1 : ℚ) := by
        exact_mod_cast h1i
      exact mul_pos hip hrp
    have hfne : ¬ f = 0 := ne_of_gt hfpos
    have hyn : (handleNewMessage freq mag).1 = interpretYesNo (some f) := by
      simp [handleNewMessage, hpass, hf]
    rw [hyn]
    simp only [interpretYesNo, if_neg hfne]
    split_ifs with hy hn
    · refine ⟨by simp [hy], ?_, ?_⟩
      · constructor
        · intro h; exact absurd h (by decide)
        · intro h; linarith
      · constructor
        · intro h; exact absurd h (by decide)
        · rintro ⟨h200, h1000⟩; linarith
    · refine ⟨?_, by simp [hn], ?_⟩
      · constructor
        · intro h; exact absurd h (by decide)
        · intro h; exact absurd h hy
      · constructor
        · intro h; exact absurd h (by decide)
        · rintro ⟨h200, _⟩; linarith
    · refine ⟨?_, ?_, ?_⟩
      · constructor
        · intro h; exact absurd h (by decide)
        · intro h; exact absurd h hy
      · constructor
        · intro h; exact absurd h (by decide)
        · intro h; exact absurd h hn
      · constructor
        · intro _; exact ⟨not_lt.mp hn, not_lt.mp hy⟩
        · intro _; rfl

/-- Witness for C5: a spectrum whose peak at 4000 Hz passes the floor and
classifies YES. -/
theorem c5_tristate_decision_witness :
    (handleNewMessage (getDominantFrequency [0, 0, 5000, 0, 0, 0, 0, 0] 16000).1
        (getDominantFrequency [0, 0, 5000, 0, 0, 0, 0, 0] 16000).2).1 = "YES" := by
  have hscan5 : domScan [0, 0, 5000, 0, 0, 0, 0, 0] = (2, some 5000) := by decide
  have hfreq5 : (getDominantFrequency [0, 0, 5000, 0, 0, 0, 0, 0] 16000).1 = some 4000 := by
    simp [getDominantFrequency, hscan5]
    norm_num
  have hmag5 : (getDominantFrequency [0, 0, 5000, 0, 0, 0, 0, 0] 16000).2 = some 5000 := by
    simp [getDominantFrequency, hscan5]
  have hpass5 : magPasses (getDominantFrequency [0, 0, 5000, 0, 0, 0, 0, 0] 16000).2 = true := by
    rw [hmag5]
    decide
  have h := c5_tristate_decision [0, 0, 5000, 0, 0, 0, 0, 0]
      (getDominantFrequency [0, 0, 5000, 0, 0, 0, 0, 0] 16000).1
      (getDominantFrequency [0, 0, 5000, 0, 0, 0, 0, 0] 16000).2 rfl
  exact ((h.2 4000 hpass5 hfreq5).1).mpr (by norm_num)

lemma getD_replicate_zero (n j : Nat) : (List.replicate n (0 : ℚ)).getD j 0 = 0 := by
  simp [List.getD]

lemma domScanAux_replicate_zero (n : Nat) :
    ∀ k : Nat, 1 ≤ k →
      (List.range' 1 k).foldl (domStep (List.replicate n (0 : ℚ))) (0, none) = (1, some 0) := by
  intro k
  induction k with
  | zero => intro h; omega
  | succ k ih =>
    intro _
    by_cases hk : 1 ≤ k
    · have hconcat0 : List.range' 1 (k + 1) 1 = List.range' 1 k 1 ++ [1 + 1 * k] :=
        List.range'_concat 1 k
      have hconcat : List.range' 1 (k + 1) = List.range' 1 k ++ [1 + k] := by
        simpa using hconcat0
      rw [hconcat, List.foldl_append, ih hk]
      simp only [List.foldl_cons, List.foldl_nil]
      have hj : jsGt ((List.replicate n (0 : ℚ)).getD (1 + k) 0)
          (((1 : Nat), some (0 : ℚ)) : Nat × Option ℚ).2 = false := by
        simp [jsGt, getD_replicate_zero]
      exact domStep_keeps (List.replicate n (0 : ℚ)) (1, some 0) (1 + k) hj
    · have hk0 : k = 0 := by omega
      subst hk0
      rw [List.range'_one]
      simp only [List.foldl_cons, List.foldl_nil]
      have hj : jsGt ((List.replicate n (0 : ℚ)).getD 1 0)
          (((0 : Nat), (none : Option ℚ)) : Nat × Option ℚ).2 = true := by
        simp [jsGt]
      have hu := domStep_updates (List.replicate n (0 : ℚ)) (0, none) 1 hj
      rw [hu, getD_replicate_zero]

lemma domScan_replicate_zero (n : Nat) (h4 : 4 ≤ n) :
    domScan (List.replicate n (0 : ℚ)) = (1, some 0) := by
  unfold domScan
  rw [List.length_replicate]
  exact domScanAux_replicate_zero n (n / 2 - 1) (by omega)

lemma getDominantFrequency_all_zero :
    getDominantFrequency (List.replicate 2048 (0 : ℚ)) 16000 = (some (125 / 16), some 0) := by
  have hd := domScan_replicate_zero 2048 (by norm_num)
  simp only [getDominantFrequency, hd]
  rw [List.length_replicate]
  norm_num

lemma generateMessage_ne_empty (freq : Option ℚ) (yesNo color : String) (mag : Option ℚ) :
    generateMessage freq yesNo color mag ≠ "" := by
  unfold generateMessage
  have hbase : 10 ≤ ((if yesNo = "YES" then "Affirmative signal present. "
      else if yesNo = "NO" then "No clear signal. "
      else "Unclear response. ") : String).length := by
    split_ifs <;> decide
  intro h
  have hl := congrArg String.length h
  simp only [String.length_append] at hl
  have h0 : ("" : String).length = 0 := rfl
  rw [h0] at hl
  omega

/-- C2 counterexample: on the all-zero 2048-bin spectrum the peak search
defaults to bin 1, so the dominant frequency is 16000 / 2048 Hz, a positive
value in the Red bucket: the color label is Red, not the claimed neutral
Gray. -/
theorem c2_all_zero_not_gray :
    mapColor (getDominantFrequency (List.replicate 2048 (0 : ℚ)) 16000).1 = "Red"
    ∧ ("Red" : String) ≠ "Gray" := by
  refine ⟨?_, by decide⟩
  rw [getDominantFrequency_all_zero]
  show mapColor (some (125 / 16)) = "Red"
  simp only [mapColor]
  rw [if_neg (by norm_num), if_pos (by norm_num)]

/-- C2 (corrected): on the all-zero 2048-bin spectrum the classifier returns
yesNo MAYBE (the zero peak magnitude fails the floor) and the synthesized
message is non-empty, but the color label is Red rather than neutral Gray,
because the argmax defaults to bin 1 whose frequency 16000 / 2048 Hz falls
in the Red bucket; the synthesizer emits no signature phrase (it has
none). -/
theorem c2_all_zero_classification :
    (handleNewMessage (getDominantFrequency (List.replicate 2048 (0 : ℚ)) 16000).1
        (getDominantFrequency (List.replicate 2048 (0 : ℚ)) 16000).2).1 = "MAYBE"
    ∧ (handleNewMessage (getDominantFrequency (List.replicate 2048 (0 : ℚ)) 16000).1
        (getDominantFrequency (List.replicate 2048 (0 : ℚ)) 16000).2).2.1 = "Red"
    ∧ (handleNewMessage (getDominantFrequency (List.replicate 2048 (0 : ℚ)) 16000).1
        (getDominantFrequency (List.replicate 2048 (0 : ℚ)) 16000).2).2.2 ≠ "" := by
  rw [getDominantFrequency_all_zero]
  have hm : magPasses (some (0 : ℚ)) = false := by simp [magPasses]
  refine ⟨?_, ?_, ?_⟩
  · show (if magPasses (some (0 : ℚ)) then interpretYesNo (some (125 / 16)) else "MAYBE")
        = "MAYBE"
    rw [hm]
    rfl
  · show mapColor (some ((125 : ℚ) / 16)) = "Red"
    simp only [mapColor]
    rw [if_neg (by norm_num), if_pos (by norm_num)]
  · exact generateMessage_ne_empty _ _ _ _

lemma runSmootherFrom_cons (K : Nat) (st : List (List ℚ)) (a : List ℚ)
    (rest : List (List ℚ)) :
    runSmootherFrom K st (a :: rest) = runSmootherFrom K (smoothPush K st a) rest := rfl

lemma runSmootherFrom_closed (K : Nat) (hK : 1 ≤ K) :
    ∀ (specs : List (List ℚ)) (st : List (List ℚ)), st.length ≤ K →
      runSmootherFrom K st specs = (st ++ specs).drop (st.length + specs.length - K) := by
  intro specs
  induction specs with
  | nil =>
    intro st h
    simp only [runSmootherFrom, List.foldl_nil, List.append_nil, List.length_nil]
    rw [Nat.add_zero, Nat.sub_eq_zero_of_le h, List.drop_zero]
  | cons a rest ih =>
    intro st h
    rw [runSmootherFrom_cons]
    by_cases hc : K < (st ++ [a]).length
    · have hlen : st.length = K := by
        simp only [List.length_append, List.length_cons, List.length_nil] at hc
        omega
      have hpush : smoothPush K st a = (st ++ [a]).drop 1 := by
        simp only [smoothPush]
        rw [if_pos hc]
      rw [hpush, ih ((st ++ [a]).drop 1)
        (by simp only [List.length_drop, List.length_append, List.length_cons,
          List.length_nil]; omega)]
      have hamount : ((st ++ [a]).drop 1).length + rest.length - K = rest.length := by
        simp only [List.length_drop, List.length_append, List.length_cons, List.length_nil]
        omega
      rw [hamount]
      have hamount2 : st.length + (a :: rest).length - K = rest.length + 1 := by
        simp only [List.length_cons]
        omega
      rw [hamount2]
      have hsplit : (st ++ [a]).drop 1 ++ rest = (st ++ a :: rest).drop 1 := by
        have e1 : (st ++ [a]).drop 1 = st.drop 1 ++ [a] :=
          List.drop_append_of_le_length (by omega)
        have e2 : (st ++ a :: rest).drop 1 = st.drop 1 ++ a :: rest :=
          List.drop_append_of_le_length (by omega)
        rw [e1, e2, List.append_assoc, List.singleton_append]
      rw [hsplit, List.drop_drop]
      congr 1
      omega
    · have hpush : smoothPush K st a = st ++ [a] := by
        simp only [smoothPush]
        rw [if_neg hc]
      have hlen1 : (st ++ [a]).length ≤ K := by
        simp only [List.length_append, List.length_cons, List.length_nil] at hc ⊢
        omega
      rw [hpush, ih (st ++ [a]) hlen1]
      have he1 : (st ++ [a]) ++ rest = st ++ a :: rest := by simp
      rw [he1]
      congr 1
      simp only [List.length_append, List.length_cons, List.length_nil]
      omega

lemma map_getD_range (v : List ℚ) :
    (List.range v.length).map (fun i => v.getD i 0) = v := by
  apply List.ext_getElem
  · simp
  · intro i h1 h2
    simp only [List.getElem_map, List.getElem_range]
    exact List.getD_eq_getElem v 0 h2

lemma smoothOut_replicate (K : Nat) (hK : 1 ≤ K) (v : List ℚ) :
    smoothOut (List.replicate K v) v = v := by
  unfold smoothOut
  have hKQ : ((K : Nat) : ℚ) ≠ 0 := Nat.cast_ne_zero.mpr (by omega)
  have hmap : ((List.range v.length).map fun i =>
      ((List.replicate K v).map fun buf => buf.getD i 0).sum
        / ((List.replicate K v).length : ℚ))
      = (List.range v.length).map fun i => v.getD i 0 := by
    apply List.map_eq_map_iff.mpr
    intro i _
    rw [List.map_replicate, List.sum_replicate, nsmul_eq_mul, List.length_replicate]
    exact mul_div_cancel_left₀ _ hKQ
  rw [hmap, map_getD_range]

lemma smoothPush_replicate (K : Nat) (hK : 1 ≤ K) (v : List ℚ) :
    smoothPush K (List.replicate K v) v = List.replicate K v := by
  simp only [smoothPush]
  rw [if_pos (by simp)]
  obtain ⟨K', rfl⟩ : ∃ K', K = K' + 1 := ⟨K - 1, by omega⟩
  rw [List.replicate_succ v K', List.cons_append]
  show List.replicate K' v ++ [v] = v :: List.replicate K' v
  rw [← List.replicate_succ' K' v, List.replicate_succ v K']

lemma smoothPush_length_le (K : Nat) (st : List (List ℚ)) (v : List ℚ)
    (hst : st.length ≤ K) : (smoothPush K st v).length ≤ K := by
  simp only [smoothPush]
  by_cases hc : K < (st ++ [v]).length
  · rw [if_pos hc]
    simp only [List.length_drop, List.length_append, List.length_cons, List.length_nil]
    omega
  · rw [if_neg hc]
    simp only [List.length_append, List.length_cons, List.length_nil] at hc ⊢
    omega

lemma runSmootherFrom_const (K : Nat) (hK : 1 ≤ K) (st : List (List ℚ))
    (hst : st.length ≤ K) (v : List ℚ) :
    runSmootherFrom K st (List.replicate K v) = List.replicate K v := by
  rw [runSmootherFrom_closed K hK (List.replicate K v) st hst]
  have hs : st.length + (List.replicate K v).length - K = st.length := by
    simp only [List.length_replicate]
    omega
  rw [hs]
  exact List.drop_left st (List.replicate K v)

lemma runSmootherFrom_const_succ (K : Nat) (hK : 1 ≤ K) (st : List (List ℚ))
    (hst : st.length ≤ K) (v : List ℚ) :
    runSmootherFrom K st (List.replicate (K + 1) v) = List.replicate K v := by
  rw [List.replicate_succ v K, runSmootherFrom_cons]
  exact runSmootherFrom_const K hK (smoothPush K st v)
    (smoothPush_length_le K st v hst) v

/-- C7 (confirmed): the smoothed output always has the length of the input
spectrum; during warm-up from the empty window the output after feeding the
spectra of init and then s is the elementwise mean of exactly those spectra;
and from any window of at most K spectra, submitting the same spectrum K + 1
times makes the output that spectrum, and it stays so under one more
identical submission. -/
theorem c7_smoother_properties (K : Nat) (hK : 1 ≤ K) :
    (∀ (st : List (List ℚ)) (mags : List ℚ),
        (smoothFrequencies K st mags).1.length = mags.length)
    ∧ (∀ (init : List (List ℚ)) (s : List ℚ), init.length + 1 ≤ K →
        (smoothFrequencies K (runSmootherFrom K [] init) s).1
          = (List.range s.length).map fun i =>
              ((init ++ [s]).map fun buf => buf.getD i 0).sum / ((init.length : ℚ) + 1))
    ∧ (∀ (st : List (List ℚ)) (v : List ℚ), st.length ≤ K →
        (smoothFrequencies K (runSmootherFrom K st (List.replicate K v)) v).1 = v
        ∧ (smoothFrequencies K (runSmootherFrom K st (List.replicate (K + 1) v)) v).1 = v) := by
  refine ⟨?_, ?_, ?_⟩
  · intro st mags
    simp [smoothFrequencies, smoothOut]
  · intro init s hinit
    have hrun : runSmootherFrom K [] init = init := by
      rw [runSmootherFrom_closed K hK init [] (by simp)]
      simp only [List.nil_append, List.length_nil, Nat.zero_add]
      rw [Nat.sub_eq_zero_of_le (by omega), List.drop_zero]
    rw [hrun]
    show smoothOut (smoothPush K init s) s = _
    have hpush : smoothPush K init s = init ++ [s] := by
      simp only [smoothPush]
      rw [if_neg (by simp only [List.length_append, List.length_cons, List.length_nil]; omega)]
    rw [hpush]
    unfold smoothOut
    apply List.map_eq_map_iff.mpr
    intro i _
    have hlen : ((init ++ [s]).length : ℚ) = (init.length : ℚ) + 1 := by
      simp only [List.length_append, List.length_cons, List.length_nil]
      push_cast
      ring
    rw [hlen]
  · intro st v hst
    constructor
    · rw [runSmootherFrom_const K hK st hst v]
      show smoothOut (smoothPush K (List.replicate K v) v) v = v
      rw [smoothPush_replicate K hK v]
      exact smoothOut_replicate K hK v
    · rw [runSmootherFrom_const_succ K hK st hst v]
      show smoothOut (smoothPush K (List.replicate K v) v) v = v
      rw [smoothPush_replicate K hK v]
      exact smoothOut_replicate K hK v

/-- Witness for C7: with window size 2 the constant spectrum is reproduced
after repeated submissions. -/
theorem c7_smoother_properties_witness :
    (smoothFrequencies 2 (runSmootherFrom 2 [] (List.replicate 2 [3, 5])) [3, 5]).1 = [3, 5] :=
  ((c7_smoother_properties 2 (by norm_num)).2.2 [] [3, 5] (by simp)).1
